import Mathlib

/-!
Verification of the namedviz configuration-parsing pipeline.

This file is a shallow embedding, in Lean 4, of the core of the namedviz
repository: the BIND named.conf discovery / include-resolution / extraction /
relationship-resolution / graph-building pipeline
(src/namedviz/parser/loader.py, src/namedviz/parser/extractor.py,
src/namedviz/graph.py, src/namedviz/models.py).

Operating-system effects (path manipulation, directory listing, file
contents) are abstracted into an explicit FS record; everything the Python
code computes itself is translated function-by-function.  Python dicts are
modelled as insertion-ordered association lists with Python's update
semantics (assignment replaces the value in place for an existing key and
appends for a new key); Python sets that are only queried for membership are
modelled as lists.
-/

set_option autoImplicit false

namespace Namedviz

/-- A diagnostics entry, as in loader.py: a dict with keys level and message. -/
structure LogEntry where
  level : String
  message : String
  deriving DecidableEq, Repr

/-- models.py Zone dataclass. -/
structure Zone where
  name : String
  zone_type : String
  server_name : String
  view : Option String
  masters : List String
  forwarders : List String
  allow_transfer : List String
  also_notify : List String
  file : Option String
  deriving DecidableEq, Repr

/-- models.py ServerConfig dataclass.  Dict-valued fields (acls,
view_server_ips) are insertion-ordered association lists. -/
structure ServerConfig where
  name : String
  zones : List Zone
  listen_on : List String
  acls : List (String × List String)
  global_forwarders : List String
  global_also_notify : List String
  global_allow_transfer : List String
  view_server_ips : List (String × List String)
  deriving DecidableEq, Repr

/-- models.py Relationship dataclass. -/
structure Relationship where
  source : String
  target : String
  rel_type : String
  zone_name : String
  view_name : String
  deriving DecidableEq, Repr

/-- The zone summary dict produced by graph.py _zone_summary. -/
structure ZoneSummary where
  name : String
  ztype : String
  server : String
  view : Option String
  deriving DecidableEq, Repr

/-- A node dict of graph.py build_graph.  Server and synthesized view-peer
nodes carry role / zone_counts / listen_on; external nodes do not (their
dict lacks those keys), which is modelled by none / []. -/
structure NodeRec where
  id : String
  ntype : String
  role : Option String
  zone_count : Nat
  zone_counts : List (String × Nat)
  zones : List ZoneSummary
  listen_on : Option (List String)
  deriving DecidableEq, Repr

/-- A link dict of graph.py build_graph. -/
structure LinkRec where
  source : String
  target : String
  rel_type : String
  zones : List String
  count : Nat
  deriving DecidableEq, Repr

/-- models.py GraphData dataclass. -/
structure GraphData where
  nodes : List NodeRec
  links : List LinkRec
  zones : List ZoneSummary
  servers : List String
  deriving DecidableEq, Repr

/-! ### Python dict as insertion-ordered association list -/

/-- Python dict assignment d[k] = v: replace the value of the first (and,
for dicts built only through this operation, only) occurrence of k in
place, else append the new pair at the end. -/
def dictSet {α : Type} : List (String × α) → String → α → List (String × α)
  | [], k, v => [(k, v)]
  | p :: d, k, v => if p.1 = k then (k, v) :: d else p :: dictSet d k v

/-- Python dict lookup d.get(k): value of the first occurrence of k. -/
def dictGet {α : Type} : List (String × α) → String → Option α
  | [], _ => none
  | p :: d, k => if p.1 = k then some p.2 else dictGet d k

theorem dictGet_dictSet {α : Type} (d : List (String × α)) (k : String) (v : α)
    (k' : String) :
    dictGet (dictSet d k v) k' = if k' = k then some v else dictGet d k' := by
  induction d with
  | nil =>
    simp only [dictSet, dictGet]
    by_cases h : k = k'
    · subst h; simp
    · rw [if_neg h, if_neg (fun hh => h hh.symm)]
  | cons p d ih =>
    by_cases hp : p.1 = k
    · subst hp
      simp only [dictSet, if_pos rfl, dictGet]
      by_cases h : p.1 = k'
      · rw [if_pos h, if_pos h.symm]
      · rw [if_neg h, if_neg (fun hh => h hh.symm), if_neg h]
    · by_cases h : p.1 = k'
      · subst h
        have h1 : dictSet (p :: d) k v = p :: dictSet d k v := by
          simp [dictSet, hp]
        rw [h1, if_neg hp]
        simp [dictGet]
      · simp only [dictSet, if_neg hp, dictGet, if_neg h, ih]

/-- Keep the first occurrence of every element, dropping later duplicates
(the iteration order of a Python set built by successive adds is not
relied upon; this is used only to state specifications). -/
def dedupFirst {α : Type} [DecidableEq α] : List α → List α
  | [] => []
  | x :: xs => x :: dedupFirst (xs.filter (fun y => y ≠ x))
termination_by l => l.length
decreasing_by
  simp only [List.length_cons]
  exact Nat.lt_succ_of_le (List.length_filter_le _ _)

theorem mem_dedupFirst {α : Type} [DecidableEq α] (l : List α) (x : α) :
    x ∈ dedupFirst l ↔ x ∈ l := by
  induction l using dedupFirst.induct with
  | case1 => simp [dedupFirst]
  | case2 y ys ih =>
    simp only [dedupFirst, List.mem_cons, ih, List.mem_filter]
    by_cases hx : x = y
    · simp [hx]
    · simp [hx]

/-- First-occurrence deduplication with an explicit already-seen
accumulator; models iterating a Python set built by successive adds (only
the element set matters downstream; this keeps first occurrences). -/
def dedupSeen {α : Type} [DecidableEq α] : List α → List α → List α
  | [], _ => []
  | x :: xs, seen =>
    if x ∈ seen then dedupSeen xs seen else x :: dedupSeen xs (seen ++ [x])

theorem mem_dedupSeen {α : Type} [DecidableEq α] (l : List α) :
    ∀ (seen : List α) (x : α), x ∈ dedupSeen l seen ↔ x ∈ l ∧ x ∉ seen := by
  induction l with
  | nil => intro seen x; simp [dedupSeen]
  | cons y ys ih =>
    intro seen x
    rw [dedupSeen]
    by_cases hy : y ∈ seen
    · rw [if_pos hy, ih]
      constructor
      · rintro ⟨h1, h2⟩
        exact ⟨List.mem_cons_of_mem y h1, h2⟩
      · rintro ⟨h1, h2⟩
        rcases List.mem_cons.mp h1 with he | hm
        · exact absurd (he ▸ hy) h2
        · exact ⟨hm, h2⟩
    · rw [if_neg hy]
      constructor
      · intro h
        rcases List.mem_cons.mp h with he | hm
        · exact ⟨he ▸ List.mem_cons_self y ys, he ▸ hy⟩
        · have := (ih _ x).mp hm
          refine ⟨List.mem_cons_of_mem y this.1, fun hs => this.2 ?_⟩
          exact List.mem_append.mpr (Or.inl hs)
      · rintro ⟨h1, h2⟩
        rcases List.mem_cons.mp h1 with he | hm
        · exact he ▸ List.mem_cons_self y (dedupSeen ys (seen ++ [y]))
        · by_cases hxy : x = y
          · exact hxy ▸ List.mem_cons_self y _
          · refine List.mem_cons_of_mem y ((ih _ x).mpr ⟨hm, fun hs => ?_⟩)
            rcases List.mem_append.mp hs with hs1 | hs2
            · exact h2 hs1
            · exact hxy (List.mem_singleton.mp hs2)

/-- Code-point-wise lexicographic comparison on strings, written over the
character lists so that it evaluates; models Python string ordering. -/
def strLeData : List Char → List Char → Bool
  | [], _ => true
  | _ :: _, [] => false
  | c :: cs, d :: ds =>
    if c.toNat < d.toNat then true
    else if d.toNat < c.toNat then false
    else strLeData cs ds

/-- String comparison used by the sorted() model. -/
def strLe (a b : String) : Bool :=
  strLeData a.data b.data

/-- Insertion sort on strings; models Python sorted() on string lists. -/
def insertSorted (x : String) : List String → List String
  | [] => [x]
  | y :: ys => if strLe x y then x :: y :: ys else y :: insertSorted x ys

/-- Sort a list of strings ascending; models Python sorted(). -/
def sortStrings (l : List String) : List String :=
  l.foldr insertSorted []

theorem mem_insertSorted (x a : String) (l : List String) :
    a ∈ insertSorted x l ↔ a = x ∨ a ∈ l := by
  induction l with
  | nil => simp [insertSorted]
  | cons y ys ih =>
    simp only [insertSorted]
    by_cases h : strLe x y
    · simp [h, List.mem_cons]
    · simp only [if_neg h, List.mem_cons, ih]
      tauto

theorem mem_sortStrings (l : List String) (a : String) :
    a ∈ sortStrings l ↔ a ∈ l := by
  induction l with
  | nil => simp [sortStrings]
  | cons y ys ih =>
    rw [show sortStrings (y :: ys) = insertSorted y (sortStrings ys) from rfl,
      mem_insertSorted]
    simp [ih]

/-! ### Filesystem abstraction

loader.py works against the OS through os.path / pathlib / open / os.walk.
Those effects are collected in an FS record; the loader's own logic
(resolution-strategy order, cycle bookkeeping, discovery modes) is
translated from the source.  A file's raw text is represented already split
by the include regex of _resolve_includes: the alternation of literal text
pieces and include "path"; directives, in order of appearance. -/

/-- One piece of a file's text, as cut up by the include-directive regex in
loader.py _resolve_includes: either literal text or one include site with
its quoted path. -/
inductive Chunk where
  | lit (s : String)
  | inc (path : String)
  deriving DecidableEq, Repr

/-- The OS surface used by loader.py.  pathExists / isFile / isDir /
listDir / realpath / dirname / basename / isAbs / joinPath / parts / stem /
entryName / suffix model os.path and pathlib calls; content models reading
and regex-splitting a file; findRecursive models _find_recursive (an
os.walk search for a basename under root_dir). -/
structure FS where
  pathExists : String → Bool
  isFile : String → Bool
  isDir : String → Bool
  listDir : String → List String
  stem : String → String
  entryName : String → String
  suffix : String → String
  realpath : String → String
  dirname : String → String
  basename : String → String
  isAbs : String → Bool
  joinPath : String → String → String
  parts : String → List String
  content : String → List Chunk
  findRecursive : String → String → Option String

/-- Errors surfaced as Python exceptions by the pipeline: FileNotFoundError
from discover_configs, and fatal parse errors (pyparsing ParseException)
from parse_named_conf. -/
inductive PipeError where
  | notFound (msg : String)
  | parseError (msg : String)
  deriving DecidableEq, Repr

/-- loader.py _find_by_suffix: try progressively longer trailing segment
lists of the include path against root_dir, shortest suffix first,
returning the first candidate that is a file. -/
def find_by_suffix (fs : FS) (inc_path root_dir : String) : Option String :=
  let parts := (fs.parts inc_path).filter (fun p => p ≠ "/")
  let n := parts.length
  (List.range n).findSome? (fun j =>
    let candidate := (parts.drop (n - 1 - j)).foldl fs.joinPath root_dir
    if fs.isFile candidate then some candidate else none)

/-- The path-resolution ladder inside loader.py _resolve_includes for one
include site: (1) relative to the including file's directory, (2) basename
in that directory, (3) _find_by_suffix against root_dir, (4)
_find_recursive in root_dir; the winner must be an existing file. -/
def resolveIncludePath (fs : FS) (base_dir root_dir original : String) : Option String :=
  let p1 := if fs.isAbs original = false then fs.joinPath base_dir original else original
  let p2 := if fs.isFile p1 = false then fs.joinPath base_dir (fs.basename p1) else p1
  let p3 : Option String :=
    if fs.isFile p2 = false then find_by_suffix fs original root_dir else some p2
  let p4 : Option String :=
    match p3 with
    | some q => if fs.isFile q then some q else fs.findRecursive original root_dir
    | none => fs.findRecursive original root_dir
  match p4 with
  | some q => if fs.isFile q then some q else none
  | none => none

/-- loader.py _resolve_includes: read a file, inline its include sites
recursively, and thread the canonical-path seen set (a Python set shared by
reference across the whole expansion; it is only ever added to, never
removed from) together with the diagnostics produced, in order.  The chunk
loop is a fold over the file's pieces accumulating (text so far, seen set,
logs so far); literal text is echoed, each include site is resolved and
recursively expanded, or replaced by nothing with a warning.  The fuel
argument bounds recursion depth; the Python code relies on the seen set for
termination, and every claim below is settled at fuel large enough that the
bound is never hit. -/
def resolve_includes : Nat → FS → String → String → List String →
    String × List String × List LogEntry
  | 0, _, _, _, seen => ("", seen, [])
  | Nat.succ f, fs, root_dir, file_path, seen =>
    let real := fs.realpath file_path
    if real ∈ seen then
      ("", seen, [⟨"warn", "Circular include skipped: " ++ file_path⟩])
    else
      let seen1 := seen ++ [real]
      let base_dir := fs.dirname real
      (fs.content file_path).foldl
        (fun (acc : String × List String × List LogEntry) chunk =>
          match chunk with
          | Chunk.lit s => (acc.1 ++ s, acc.2.1, acc.2.2)
          | Chunk.inc original =>
            match resolveIncludePath fs base_dir root_dir original with
            | some incFile =>
              let r1 := resolve_includes f fs root_dir incFile acc.2.1
              (acc.1 ++ r1.1, r1.2.1,
                acc.2.2 ++ (⟨"info", "Resolved include: " ++ original⟩ :: r1.2.2))
            | none =>
              (acc.1, acc.2.1,
                acc.2.2 ++ [⟨"warn", "Include file not found: " ++ original⟩]))
        ("", seen1, [])

/-- The subdirectory-mode loop of discover_configs: each sorted immediate
subdirectory holding named.conf or named.conf.local (first of the two that
exists), keyed by the directory name. -/
def subdirModeConfigs (fs : FS) (config_path : String) : List (String × String) :=
  (sortStrings (fs.listDir config_path)).foldl (fun acc entry =>
    if fs.isDir entry then
      match (["named.conf", "named.conf.local"]).find?
          (fun c => fs.isFile (fs.joinPath entry c)) with
      | some c => dictSet acc (fs.entryName entry) (fs.joinPath entry c)
      | none => acc
    else acc) []

/-- The flat-file loop of discover_configs: every sorted directory entry
that is a file with suffix .conf, keyed by its stem. -/
def flatModeConfigs (fs : FS) (config_path : String) : List (String × String) :=
  (sortStrings (fs.listDir config_path)).foldl (fun acc entry =>
    if fs.isFile entry && fs.suffix entry == ".conf" then
      dictSet acc (fs.stem entry) entry
    else acc) []

/-- loader.py discover_configs: FileNotFoundError when the path does not
exist; a single file maps its stem; otherwise subdirectory mode, and
flat-file mode only when subdirectory mode found nothing. -/
def discover_configs (fs : FS) (config_path : String) :
    Except PipeError (List (String × String)) :=
  if fs.pathExists config_path = false then
    .error (.notFound ("Config path not found: " ++ config_path))
  else if fs.isFile config_path then
    .ok [(fs.stem config_path, config_path)]
  else
    let subdirConfigs := subdirModeConfigs fs config_path
    if subdirConfigs.isEmpty then
      .ok (flatModeConfigs fs config_path)
    else .ok subdirConfigs

/-! ### Parse results

grammar.py returns pyparsing ParseResults: an ordered sequence of named
groups, addressed both by iteration (getName dispatch in the extractor) and
by key lookup (item.get).  That dual access is modelled by a closed
inductive with one constructor per recognized block kind; the named keys a
block's consumers read become typed fields, and the items the extractor
iterates over inside a view become its body list. -/

/-- One top-level or view-nested parse node as consumed by extractor.py.
zone carries zone_name, the optional type/file groups (their value key),
and the four address lists; options carries its five recognized lists;
viewBlock carries view_name, the view-level lists, the server-statement
IPs, and its iterated body (where nested zone groups appear); unknown
stands for any generically skipped statement (only its keyword survives
parsing, in the module-global warning list, not in the results). -/
inductive ParseItem where
  | zone (zone_name : String) (zone_type : Option String) (file : Option String)
      (masters forwarders allow_transfer also_notify : List String)
  | options (forwarders also_notify allow_transfer listen_on listen_on_v6 : List String)
  | acl (acl_name : String) (entries : List String)
  | viewBlock (view_name : String) (also_notify allow_transfer forwarders : List String)
      (view_servers : List String) (body : List ParseItem)
  | unknown (keyword : String)

/-- The outcome of grammar.py parse_named_conf on one inlined text: either
a fatal pyparsing ParseException, or the parse results paired with the
contents of the module-global _unknown_warnings list right after parsing
(one keyword per generically skipped statement).  The grammar itself is
abstract; each claim fixes a concrete oracle where it matters. -/
def ParseFn : Type := String → Except String (List ParseItem × List String)

/-- grammar.py get_unknown_warnings: return a copy of the module-global
warning list and clear the global.  No pipeline code ever calls it. -/
def get_unknown_warnings (st : List String) : List String × List String :=
  (st, [])

/-- loader.py load_and_parse: resolve includes starting from the file's
directory as root_dir, then parse the inlined text.  The returned logs are
exactly the include-resolution diagnostics; the unknown-statement keywords
the grammar collected in its module global are left unread. -/
def load_and_parse (fs : FS) (parse : ParseFn) (fuel : Nat) (file_path : String) :
    Except PipeError (List ParseItem × List LogEntry) :=
  let root_dir := fs.dirname (fs.realpath file_path)
  let r := resolve_includes fuel fs root_dir file_path []
  match parse r.1 with
  | .error e => .error (.parseError e)
  | .ok (results, _unknown_warnings) => .ok (results, r.2.2)

/-! ### Extractor (src/namedviz/parser/extractor.py) -/

/-- extractor.py _extract_zone: build a Zone from a parsed zone block, or
None when the zone_name key is empty.  zone_type and file default to "" /
None when the corresponding group is absent. -/
def extract_zone (server_name : String) (item : ParseItem) (view_name : Option String) :
    Option Zone :=
  match item with
  | .zone zone_name zone_type file masters forwarders allow_transfer also_notify =>
    if zone_name = "" then none
    else some
      { name := zone_name
        zone_type := zone_type.getD ""
        server_name := server_name
        view := view_name
        masters := masters
        forwarders := forwarders
        allow_transfer := allow_transfer
        also_notify := also_notify
        file := file }
  | _ => none

/-- extractor.py _extract_options: non-empty lists overwrite the global
fallback lists; listen_on and listen_on_v6 entries extend listen_on with
any / none / localhost filtered out. -/
def extract_options (config : ServerConfig)
    (forwarders also_notify allow_transfer listen_on listen_on_v6 : List String) :
    ServerConfig :=
  let config :=
    if forwarders.isEmpty then config
    else { config with global_forwarders := forwarders }
  let config :=
    if also_notify.isEmpty then config
    else { config with global_also_notify := also_notify }
  let config :=
    if allow_transfer.isEmpty then config
    else { config with global_allow_transfer := allow_transfer }
  { config with listen_on := config.listen_on
      ++ listen_on.filter (fun ip => ¬ (ip = "any" ∨ ip = "none" ∨ ip = "localhost"))
      ++ listen_on_v6.filter (fun ip => ¬ (ip = "any" ∨ ip = "none" ∨ ip = "localhost")) }

/-- The view-fallback application in extractor.py _extract_from_results:
a zone's own non-empty list wins; an empty list inherits the enclosing
view's list (passed as [] when there is no view context or the view's list
was empty, matching the v_also_notify or None convention of the call
site and the truthiness test at the use site). -/
def applyViewFallbacks (zone : Zone)
    (view_also_notify view_allow_transfer view_forwarders : List String) : Zone :=
  let zone :=
    if zone.also_notify.isEmpty ∧ ¬ view_also_notify.isEmpty then
      { zone with also_notify := view_also_notify }
    else zone
  let zone :=
    if zone.allow_transfer.isEmpty ∧ ¬ view_allow_transfer.isEmpty then
      { zone with allow_transfer := view_allow_transfer }
    else zone
  if zone.forwarders.isEmpty ∧ ¬ view_forwarders.isEmpty then
    { zone with forwarders := view_forwarders }
  else zone

/-- extractor.py _extract_from_results: walk the parse results, appending
zones (with view fallbacks applied), merging options, recording acls and
view-level server IPs, and recursing into view bodies with the view's own
lists as fallback context. -/
def extract_from_results (config : ServerConfig) (results : List ParseItem)
    (view_name : Option String)
    (view_also_notify view_allow_transfer view_forwarders : List String) :
    ServerConfig :=
  match results with
  | [] => config
  | item :: rest =>
    let config :=
      match item with
      | .zone zn zt fv ms fw at_ an =>
        match extract_zone config.name (.zone zn zt fv ms fw at_ an) view_name with
        | some zone =>
          { config with zones := config.zones
              ++ [applyViewFallbacks zone view_also_notify view_allow_transfer
                    view_forwarders] }
        | none => config
      | .options fw an at_ lo lov6 => extract_options config fw an at_ lo lov6
      | .acl acl_name entries =>
        if acl_name = "" then config
        else { config with acls := dictSet config.acls acl_name entries }
      | .viewBlock vname v_also_notify v_allow_transfer v_forwarders v_servers body =>
        let config :=
          if ¬ v_servers.isEmpty ∧ vname ≠ "" then
            { config with view_server_ips := dictSet config.view_server_ips vname v_servers }
          else config
        extract_from_results config body (some vname)
          v_also_notify v_allow_transfer v_forwarders
      | .unknown _ => config
    extract_from_results config rest view_name
      view_also_notify view_allow_transfer view_forwarders

/-- extractor.py extract_server_config: walk the parse results for one
server with no view context. -/
def extract_server_config (server_name : String) (parse_results : List ParseItem) :
    ServerConfig :=
  extract_from_results
    { name := server_name, zones := [], listen_on := [], acls := []
      global_forwarders := [], global_also_notify := [], global_allow_transfer := []
      view_server_ips := [] }
    parse_results none [] [] []

/-- The per-server loop of extractor.py extract_all: parse each discovered
config, append the extracted server, prefix each diagnostic with the server
name, and add the per-server zone-count info line.  A fatal error raised by
load_and_parse is not caught anywhere in the loop: it propagates and the
remaining configs are never visited. -/
def extractAllGo (fs : FS) (parse : ParseFn) (fuel : Nat) :
    List (String × String) → List ServerConfig → List LogEntry →
    Except PipeError (List ServerConfig × List LogEntry)
  | [], servers, all_logs => .ok (servers, all_logs)
  | (server_name, file_path) :: rest, servers, all_logs =>
    match load_and_parse fs parse fuel file_path with
    | .error e => .error e
    | .ok (results, logs) =>
      let server := extract_server_config server_name results
      let entryLogs := logs.map (fun entry =>
        ⟨entry.level, "[" ++ server_name ++ "] " ++ entry.message⟩)
      let infoLog : LogEntry :=
        ⟨"info", "[" ++ server_name ++ "] Parsed " ++ toString server.zones.length
          ++ " zone(s)"⟩
      extractAllGo fs parse fuel rest (servers ++ [server])
        (all_logs ++ entryLogs ++ [infoLog])

/-- extractor.py extract_all: discover, parse, and extract all server
configs from a path, returning (servers, logs). -/
def extract_all (fs : FS) (parse : ParseFn) (fuel : Nat) (config_path : String) :
    Except PipeError (List ServerConfig × List LogEntry) :=
  match discover_configs fs config_path with
  | .error e => .error e
  | .ok configs => extractAllGo fs parse fuel configs [] []

/-! ### Relationship resolver (extractor.py resolve_relationships) -/

/-- The master_zones index of resolve_relationships: zone name mapped to
the name of a server holding a master/primary zone of that name.  The dict
assignment has no presence guard. -/
def buildMasterZones (servers : List ServerConfig) : List (String × String) :=
  servers.foldl (fun d server =>
    server.zones.foldl (fun d zone =>
      if zone.zone_type = "master" ∨ zone.zone_type = "primary" then
        dictSet d zone.name server.name
      else d) d) []

/-- The ip_to_server index of resolve_relationships: each listen_on IP
mapped to a server name, written only when the IP is not yet present. -/
def buildIpToServer (servers : List ServerConfig) : List (String × String) :=
  servers.foldl (fun d server =>
    server.listen_on.foldl (fun d ip =>
      match dictGet d ip with
      | some _ => d
      | none => dictSet d ip server.name) d) []

/-- extractor.py _resolve_ip: a known server name resolves to itself, a
listen_on IP resolves to its owner, anything else stays literal. -/
def resolve_ip (ip : String) (server_names : List String)
    (ip_to_server : List (String × String)) : String :=
  if ip ∈ server_names then ip
  else
    match dictGet ip_to_server ip with
    | some s => s
    | none => ip

/-- The slave-zone step of resolve_relationships: a zone-name hit in
master_zones yields the single authoritative master → slave edge; otherwise
each masters IP is resolved and one edge is emitted per distinct resolved
source, the seen set keeping first occurrences. -/
def masterSlaveRelsForZone (master_zones : List (String × String))
    (server_names : List String) (ip_to_server : List (String × String))
    (server_name : String) (zone : Zone) : List Relationship :=
  if zone.zone_type = "slave" ∨ zone.zone_type = "secondary" then
    match dictGet master_zones zone.name with
    | some master =>
      [⟨master, server_name, "master_slave", zone.name, zone.view.getD ""⟩]
    | none =>
      (zone.masters.foldl (fun (acc : List String × List Relationship) ip =>
        let src := resolve_ip ip server_names ip_to_server
        if src ∈ acc.1 then acc
        else (acc.1 ++ [src],
          acc.2 ++ [⟨src, server_name, "master_slave", zone.name, zone.view.getD ""⟩]))
        ([], [])).2
  else []

/-- The also-notify step of resolve_relationships: for master/primary
zones, the zone's own list or, when empty, the server's global list. -/
def alsoNotifyRelsForZone (server_names : List String)
    (ip_to_server : List (String × String)) (server : ServerConfig) (zone : Zone) :
    List Relationship :=
  if zone.zone_type = "master" ∨ zone.zone_type = "primary" then
    (if zone.also_notify.isEmpty then server.global_also_notify else zone.also_notify).map
      (fun ip =>
        ⟨server.name, resolve_ip ip server_names ip_to_server, "also_notify",
          zone.name, zone.view.getD ""⟩)
  else []

/-- The allow-transfer step of resolve_relationships: like also-notify but
skipping the literal any / none / localhost entries. -/
def allowTransferRelsForZone (server_names : List String)
    (ip_to_server : List (String × String)) (server : ServerConfig) (zone : Zone) :
    List Relationship :=
  if zone.zone_type = "master" ∨ zone.zone_type = "primary" then
    ((if zone.allow_transfer.isEmpty then server.global_allow_transfer
      else zone.allow_transfer).filter
        (fun ip => ¬ (ip = "any" ∨ ip = "none" ∨ ip = "localhost"))).map
      (fun ip =>
        ⟨server.name, resolve_ip ip server_names ip_to_server, "allow_transfer",
          zone.name, zone.view.getD ""⟩)
  else []

/-- The forward step of resolve_relationships: for forward-type zones, the
zone's own forwarders or, when empty, the server's global forwarders. -/
def forwardRelsForZone (server_names : List String)
    (ip_to_server : List (String × String)) (server : ServerConfig) (zone : Zone) :
    List Relationship :=
  if zone.zone_type = "forward" then
    (if zone.forwarders.isEmpty then server.global_forwarders else zone.forwarders).map
      (fun ip =>
        ⟨server.name, resolve_ip ip server_names ip_to_server, "forward",
          zone.name, zone.view.getD ""⟩)
  else []

/-- The relationships appended for one zone, in source order: master_slave,
also_notify, allow_transfer, forward. -/
def zoneRelationships (master_zones : List (String × String))
    (server_names : List String) (ip_to_server : List (String × String))
    (server : ServerConfig) (zone : Zone) : List Relationship :=
  masterSlaveRelsForZone master_zones server_names ip_to_server server.name zone
    ++ alsoNotifyRelsForZone server_names ip_to_server server zone
    ++ allowTransferRelsForZone server_names ip_to_server server zone
    ++ forwardRelsForZone server_names ip_to_server server zone

/-- The view-level peer edges of resolve_relationships: one edge per
declared server IP per view, with empty zone_name. -/
def peerRels (server_names : List String) (ip_to_server : List (String × String))
    (server : ServerConfig) : List Relationship :=
  server.view_server_ips.flatMap (fun p =>
    p.2.map (fun ip =>
      ⟨server.name, resolve_ip ip server_names ip_to_server, "peer", "", p.1⟩))

/-- extractor.py resolve_relationships: build the two indices, generate the
per-zone and peer edges in source order, then drop every self-referential
relationship. -/
def resolve_relationships (servers : List ServerConfig) : List Relationship :=
  let master_zones := buildMasterZones servers
  let ip_to_server := buildIpToServer servers
  let server_names := servers.map (fun s => s.name)
  ((servers.flatMap (fun server =>
      server.zones.flatMap
        (zoneRelationships master_zones server_names ip_to_server server)))
    ++ servers.flatMap (peerRels server_names ip_to_server)).filter
      (fun r => r.source ≠ r.target)

/-! ### Graph builder (src/namedviz/graph.py) -/

/-- graph.py _zone_type_counts: per-type zone counts with primary → master
and secondary → slave normalized for counting only.  The Python dict of
counters is an insertion-ordered association list. -/
def zone_type_counts (server : ServerConfig) : List (String × Nat) :=
  server.zones.foldl (fun counts z =>
    let zt := if z.zone_type = "primary" then "master"
      else if z.zone_type = "secondary" then "slave" else z.zone_type
    dictSet counts zt ((dictGet counts zt).getD 0 + 1)) []

/-- graph.py _server_role: mixed when the server holds both master-type and
slave-type zones, else master, else slave, else other. -/
def server_role (server : ServerConfig) : String :=
  let has_master := server.zones.any
    (fun z => z.zone_type = "master" ∨ z.zone_type = "primary")
  let has_slave := server.zones.any
    (fun z => z.zone_type = "slave" ∨ z.zone_type = "secondary")
  if has_master && has_slave then "mixed"
  else if has_master then "master"
  else if has_slave then "slave"
  else "other"

/-- graph.py _zone_summary. -/
def zone_summary (zone : Zone) : ZoneSummary :=
  ⟨zone.name, zone.zone_type, zone.server_name, zone.view⟩

/-- The view-server-id collection of build_graph: every view-declared
server IP, resolved through the servers' listen_on lists, that is not a
known server name.  Python accumulates them in a set; the list here may
hold duplicates and is deduplicated exactly where the set is iterated. -/
def viewServerIds (servers : List ServerConfig) : List String :=
  let server_names := servers.map (fun s => s.name)
  servers.flatMap (fun server =>
    server.view_server_ips.flatMap (fun p =>
      p.2.filterMap (fun ip =>
        let resolved :=
          match servers.find? (fun s => ip ∈ s.listen_on) with
          | some s => s.name
          | none => ip
        if resolved ∈ server_names then none else some resolved)))

/-- The link-aggregation step of build_graph: a Python dict keyed by
(source, target, rel_type); a fresh key appends a link with one zone and
count 1, an existing key extends its zone list and count in place. -/
def addRel : List LinkRec → Relationship → List LinkRec
  | [], r => [⟨r.source, r.target, r.rel_type, [r.zone_name], 1⟩]
  | l :: ls, r =>
    if l.source = r.source ∧ l.target = r.target ∧ l.rel_type = r.rel_type then
      { l with zones := l.zones ++ [r.zone_name], count := l.count + 1 } :: ls
    else l :: addRel ls r

/-- graph.py build_graph: resolve relationships, synthesize server /
view-peer / external nodes, aggregate links by (source, target, rel_type),
and flatten zone summaries. -/
def build_graph (servers : List ServerConfig) : GraphData :=
  let relationships := resolve_relationships servers
  let server_names := servers.map (fun s => s.name)
  let view_server_ids := viewServerIds servers
  let all_endpoints := relationships.map (fun r => r.target)
    ++ relationships.map (fun r => r.source)
  let external_nodes := all_endpoints.filter
    (fun e => e ∉ server_names ∧ e ∉ view_server_ids)
  let serverNodes := servers.map (fun server =>
    ({ id := server.name, ntype := "server", role := some (server_role server)
       zone_count := server.zones.length, zone_counts := zone_type_counts server
       zones := server.zones.map zone_summary
       listen_on := some server.listen_on } : NodeRec))
  let viewServerNodes := (sortStrings (dedupSeen view_server_ids [])).map (fun vs =>
    ({ id := vs, ntype := "server", role := some "slave", zone_count := 0
       zone_counts := [], zones := [], listen_on := some [vs] } : NodeRec))
  let externalNodes := (sortStrings (dedupSeen external_nodes [])).map (fun ext =>
    ({ id := ext, ntype := "external", role := none, zone_count := 0
       zone_counts := [], zones := [], listen_on := none } : NodeRec))
  { nodes := serverNodes ++ viewServerNodes ++ externalNodes
    links := relationships.foldl addRel []
    zones := servers.flatMap (fun server => server.zones.map zone_summary)
    servers := servers.map (fun s => s.name) }

/-- The aggregation key of a relationship (graph.py groups links by it). -/
def relKey (r : Relationship) : String × String × String :=
  (r.source, r.target, r.rel_type)

/-- The aggregation key of a link. -/
def linkKey (l : LinkRec) : String × String × String :=
  (l.source, l.target, l.rel_type)

/-- The one aggregated link of a given key: the ordered zone names and the
size of the group of relationships sharing that key. -/
def mkLink (rels : List Relationship) (k : String × String × String) : LinkRec :=
  { source := k.1, target := k.2.1, rel_type := k.2.2
    zones := (rels.filter (fun r => relKey r = k)).map (fun r => r.zone_name)
    count := (rels.filter (fun r => relKey r = k)).length }

/-- Modelled from the spec (section 4.6): links are produced by grouping
relationships by (source, target, rel_type); each group becomes one link
carrying the ordered list of contributing zone names and a count equal to
the group size, one link per distinct key in first-occurrence order.  This
is the specification-side definition build_graph is compared against. -/
def linksSpec (rels : List Relationship) : List LinkRec :=
  (dedupFirst (rels.map relKey)).map (mkLink rels)

/-! ### Concrete example data used by witnesses -/

/-- A master zone of example.com on server1, notifying 10.0.0.2. -/
def zoneMasterExample : Zone :=
  ⟨"example.com", "master", "server1", none, [], [], [], ["10.0.0.2"], none⟩

/-- A slave zone of example.com on server2 with masters 10.0.0.1. -/
def zoneSlaveExample : Zone :=
  ⟨"example.com", "slave", "server2", none, ["10.0.0.1"], [], [], [], none⟩

/-- server1 of the spec's end-to-end scenario. -/
def server1Example : ServerConfig :=
  ⟨"server1", [zoneMasterExample], ["10.0.0.1"], [], [], [], [], []⟩

/-- server2 of the spec's end-to-end scenario. -/
def server2Example : ServerConfig :=
  ⟨"server2", [zoneSlaveExample], ["10.0.0.2"], [], [], [], [], []⟩

/-! ### C8 -/

/-- C8: self-loop elimination.  No relationship returned by
resolve_relationships has source equal to target; in particular a slave
zone whose masters IP resolves back to its own server produces no
master_slave edge, since the edge is dropped by the final filter. -/
theorem c8_no_self_loops (servers : List ServerConfig) (r : Relationship)
    (h : r ∈ resolve_relationships servers) : r.source ≠ r.target := by
  unfold resolve_relationships at h
  have h2 := (List.mem_filter.mp h).2
  simpa using h2

/-- Witness for C8 at the end-to-end scenario servers. -/
theorem c8_no_self_loops_witness :
    (⟨"server1", "server2", "master_slave", "example.com", ""⟩ : Relationship).source
      ≠ (⟨"server1", "server2", "master_slave", "example.com", ""⟩ : Relationship).target :=
  c8_no_self_loops [server1Example, server2Example] _ (by decide)

/-! ### C9 -/

/-- C9: discover_configs raises NotFound exactly when the path does not
exist; an existing file maps its stem; an existing directory uses
subdirectory mode when it finds anything and flat-file mode otherwise (an
empty mapping is an ok result, not an error). -/
theorem c9_discover_modes (fs : FS) (p : String) :
    ((discover_configs fs p
        = .error (.notFound ("Config path not found: " ++ p)))
      ↔ fs.pathExists p = false)
    ∧ (fs.pathExists p = true → fs.isFile p = true →
        discover_configs fs p = .ok [(fs.stem p, p)])
    ∧ (fs.pathExists p = true → fs.isFile p = false →
        subdirModeConfigs fs p ≠ [] →
        discover_configs fs p = .ok (subdirModeConfigs fs p))
    ∧ (fs.pathExists p = true → fs.isFile p = false →
        subdirModeConfigs fs p = [] →
        discover_configs fs p = .ok (flatModeConfigs fs p)) := by
  unfold discover_configs
  by_cases hex : fs.pathExists p = false
  · simp [hex]
  · rw [Bool.not_eq_false] at hex
    by_cases hf : fs.isFile p
    · simp [hex, hf]
    · by_cases hsub : (subdirModeConfigs fs p).isEmpty
      · have hsub' := List.isEmpty_iff.mp hsub
        simp [hex, hf, hsub, hsub']
      · simp only [hex, hf, hsub]
        refine ⟨by simp, by simp, fun _ _ _ => by simp [hsub], fun _ _ hnil => ?_⟩
        exact absurd (List.isEmpty_iff.mpr hnil) hsub

/-- A two-entry directory tree for the C9 witness: /conf holds one
subdirectory s1 containing a named.conf. -/
def fsDisc : FS where
  pathExists := fun p => p == "/conf" || p == "/conf/s1" || p == "/conf/s1/named.conf"
  isFile := fun p => p == "/conf/s1/named.conf"
  isDir := fun p => p == "/conf/s1"
  listDir := fun p => if p == "/conf" then ["/conf/s1"] else []
  stem := fun p => if p == "/conf/s1/named.conf" then "named" else ""
  entryName := fun p => if p == "/conf/s1" then "s1" else ""
  suffix := fun _ => ""
  realpath := fun p => p
  dirname := fun _ => ""
  basename := fun p => p
  isAbs := fun _ => true
  joinPath := fun a b => a ++ "/" ++ b
  parts := fun _ => []
  content := fun _ => []
  findRecursive := fun _ _ => none

/-- Witness for C9: subdirectory mode on the concrete tree. -/
theorem c9_discover_modes_witness :
    discover_configs fsDisc "/conf" = .ok (subdirModeConfigs fsDisc "/conf") :=
  (c9_discover_modes fsDisc "/conf").2.2.1 (by decide) (by decide) (by decide)

/-! ### C4 -/

/-- Whether a server holds a master/primary zone of the given name (the
write condition of the master_zones loop). -/
def hasMasterZoneNamed (s : ServerConfig) (z : String) : Bool :=
  s.zones.any (fun zo => zo.name = z ∧ (zo.zone_type = "master" ∨ zo.zone_type = "primary"))

theorem buildMasterZones_inner (zones : List Zone) (d : List (String × String))
    (sname z : String) :
    dictGet (zones.foldl (fun d zone =>
        if zone.zone_type = "master" ∨ zone.zone_type = "primary" then
          dictSet d zone.name sname
        else d) d) z
      = if ∃ zo ∈ zones,
            zo.name = z ∧ (zo.zone_type = "master" ∨ zo.zone_type = "primary") then
          some sname
        else dictGet d z := by
  induction zones generalizing d with
  | nil => simp
  | cons zo zs ih =>
    simp only [List.foldl_cons, ih]
    by_cases hty : zo.zone_type = "master" ∨ zo.zone_type = "primary"
    · by_cases hrest : ∃ x ∈ zs,
          x.name = z ∧ (x.zone_type = "master" ∨ x.zone_type = "primary")
      · simp [hty, hrest, List.exists_mem_cons_iff]
      · by_cases hz : zo.name = z
        · simp [hty, hrest, hz, List.exists_mem_cons_iff, dictGet_dictSet]
        · simp [hty, hrest, hz, List.exists_mem_cons_iff, dictGet_dictSet, Ne.symm hz]
    · by_cases hrest : ∃ x ∈ zs,
          x.name = z ∧ (x.zone_type = "master" ∨ x.zone_type = "primary")
      · simp [hty, hrest, List.exists_mem_cons_iff]
      · simp [hty, hrest, List.exists_mem_cons_iff]

theorem hasMasterZoneNamed_iff (s : ServerConfig) (z : String) :
    hasMasterZoneNamed s z = true
      ↔ ∃ zo ∈ s.zones,
          zo.name = z ∧ (zo.zone_type = "master" ∨ zo.zone_type = "primary") := by
  simp [hasMasterZoneNamed]

theorem buildMasterZones_spec (servers : List ServerConfig) (z : String) :
    dictGet (buildMasterZones servers) z
      = ((servers.filter (fun s => hasMasterZoneNamed s z)).getLast?).map
          (fun s => s.name) := by
  suffices h : ∀ d, dictGet (servers.foldl (fun d server =>
      server.zones.foldl (fun d zone =>
        if zone.zone_type = "master" ∨ zone.zone_type = "primary" then
          dictSet d zone.name server.name
        else d) d) d) z
      = match (servers.filter (fun s => hasMasterZoneNamed s z)).getLast? with
        | some s => some s.name
        | none => dictGet d z by
    rw [buildMasterZones, h []]
    cases (servers.filter (fun s => hasMasterZoneNamed s z)).getLast? <;>
      simp [dictGet]
  induction servers using List.reverseRecOn with
  | nil => intro d; simp
  | append_singleton srv s ih =>
    intro d
    rw [List.foldl_append, List.foldl_cons, List.foldl_nil, buildMasterZones_inner,
      List.filter_append]
    by_cases hs : ∃ zo ∈ s.zones,
        zo.name = z ∧ (zo.zone_type = "master" ∨ zo.zone_type = "primary")
    · have hfs : List.filter (fun s => hasMasterZoneNamed s z) [s] = [s] := by
        simp only [List.filter_cons, List.filter_nil]
        rw [if_pos ((hasMasterZoneNamed_iff s z).mpr hs)]
      rw [hfs, List.getLast?_concat, if_pos hs]
    · have hfs : List.filter (fun s => hasMasterZoneNamed s z) [s] = [] := by
        simp only [List.filter_cons, List.filter_nil]
        rw [if_neg (fun hh => hs ((hasMasterZoneNamed_iff s z).mp hh))]
      rw [hfs, List.append_nil, if_neg hs, ih d]

theorem buildIpToServer_inner (los : List String) (d : List (String × String))
    (sname ip : String) :
    dictGet (los.foldl (fun d i =>
        match dictGet d i with
        | some _ => d
        | none => dictSet d i sname) d) ip
      = match dictGet d ip with
        | some v => some v
        | none => if ip ∈ los then some sname else none := by
  induction los generalizing d with
  | nil => cases h : dictGet d ip <;> simp [h]
  | cons lo ls ih =>
    simp only [List.foldl_cons]
    cases h : dictGet d lo with
    | some v =>
      rw [ih d]
      cases h2 : dictGet d ip with
      | some w => simp [h2]
      | none =>
        have hne : ip ≠ lo := by
          intro he; rw [he, h] at h2; exact Option.noConfusion h2
        simp [h2, List.mem_cons, hne]
    | none =>
      rw [ih (dictSet d lo sname)]
      cases h2 : dictGet d ip with
      | some w =>
        have hne : ip ≠ lo := by
          intro he; rw [he, h] at h2; exact Option.noConfusion h2
        simp [dictGet_dictSet, hne, h2]
      | none =>
        by_cases he : ip = lo
        · simp [dictGet_dictSet, he, List.mem_cons]
        · simp [dictGet_dictSet, he, h2, List.mem_cons]

theorem buildIpToServer_spec (servers : List ServerConfig) (ip : String) :
    dictGet (buildIpToServer servers) ip
      = ((servers.filter (fun s => ip ∈ s.listen_on)).head?).map (fun s => s.name) := by
  suffices h : ∀ d, dictGet (servers.foldl (fun d server =>
      server.listen_on.foldl (fun d i =>
        match dictGet d i with
        | some _ => d
        | none => dictSet d i server.name) d) d) ip
      = match dictGet d ip with
        | some v => some v
        | none =>
          ((servers.filter (fun s => ip ∈ s.listen_on)).head?).map (fun s => s.name) by
    rw [buildIpToServer, h []]
    simp [dictGet]
  induction servers with
  | nil => intro d; cases h : dictGet d ip <;> simp [h]
  | cons s rest ih =>
    intro d
    rw [List.foldl_cons, ih, buildIpToServer_inner]
    cases h2 : dictGet d ip with
    | some v => simp
    | none =>
      by_cases hin : ip ∈ s.listen_on
      · simp [hin, List.filter_cons]
      · simp [hin, List.filter_cons]

/-- Servers A then B, both with a master zone named z and both listening on
1.1.1.1: the input on which the claimed first-writer-wins behaviour of
master_zones is refuted. -/
def dupMasterA : ServerConfig :=
  ⟨"A", [⟨"z", "master", "A", none, [], [], [], [], none⟩], ["1.1.1.1"],
    [], [], [], [], []⟩

/-- Second server of the duplicated-master input. -/
def dupMasterB : ServerConfig :=
  ⟨"B", [⟨"z", "master", "B", none, [], [], [], [], none⟩], ["1.1.1.1"],
    [], [], [], [], []⟩

/-- Counterexample to C4: with servers [A, B] both holding a master zone z,
master_zones maps z to B, the last server in input order, not the first
(the claim predicts A); the ip_to_server index, by contrast, does keep the
first writer A for the duplicated listen address. -/
theorem c4_counterexample :
    dictGet (buildMasterZones [dupMasterA, dupMasterB]) "z" = some "B"
      ∧ dictGet (buildIpToServer [dupMasterA, dupMasterB]) "1.1.1.1" = some "A" := by
  constructor <;> rfl

/-- C4 amended: index construction is last-writer-wins for master_zones
(the dict assignment has no presence guard, so the last server in input
order holding a master/primary zone of the name wins) and first-writer-wins
for ip_to_server (the assignment is guarded by a presence check). -/
theorem c4_index_construction (servers : List ServerConfig) (z ip : String) :
    dictGet (buildMasterZones servers) z
      = ((servers.filter (fun s => hasMasterZoneNamed s z)).getLast?).map
          (fun s => s.name)
    ∧ dictGet (buildIpToServer servers) ip
      = ((servers.filter (fun s => ip ∈ s.listen_on)).head?).map (fun s => s.name) :=
  ⟨buildMasterZones_spec servers z, buildIpToServer_spec servers ip⟩

/-! ### C6 -/

/-- C6: view fallback precedence in the extractor.  Processing a zone block
under a view context appends exactly one zone whose also-notify,
allow-transfer and forwarders lists are its own when non-empty and the
view's list (verbatim, same order) when its own is empty; with no view
context the context lists are [] and the zone keeps its own (possibly
empty) lists.  The universally quantified config shows that the server's
global-options lists play no part at extraction time. -/
theorem c6_view_fallback (config : ServerConfig) (zn : String) (zt fv : Option String)
    (ms fw atl anl : List String) (vname : Option String) (vAN vAT vF : List String)
    (h : zn ≠ "") :
    extract_from_results config [.zone zn zt fv ms fw atl anl] vname vAN vAT vF
      = { config with zones := config.zones ++ [{
          name := zn
          zone_type := zt.getD ""
          server_name := config.name
          view := vname
          masters := ms
          forwarders := if fw.isEmpty then vF else fw
          allow_transfer := if atl.isEmpty then vAT else atl
          also_notify := if anl.isEmpty then vAN else anl
          file := fv }] } := by
  simp only [extract_from_results, extract_zone, if_neg h, applyViewFallbacks]
  cases anl <;> cases vAN <;> cases atl <;> cases vAT <;> cases fw <;> cases vF <;> simp

/-- An empty server config named master-server, as built at the top of
extract_server_config. -/
def emptyConfigExample : ServerConfig :=
  ⟨"master-server", [], [], [], [], [], [], []⟩

/-- Witness for C6: a zone with its own also-notify inside a view whose
also-notify and allow-transfer lists are non-empty keeps its own
also-notify and inherits the view's allow-transfer. -/
theorem c6_view_fallback_witness :
    extract_from_results emptyConfigExample
        [.zone "example.org" (some "master") none [] [] [] ["10.0.0.7"]]
        (some "internal") ["10.0.0.5"] ["10.0.0.6"] []
      = { emptyConfigExample with zones := [{
          name := "example.org"
          zone_type := "master"
          server_name := "master-server"
          view := some "internal"
          masters := []
          forwarders := []
          allow_transfer := ["10.0.0.6"]
          also_notify := ["10.0.0.7"]
          file := none }] } :=
  c6_view_fallback emptyConfigExample "example.org" (some "master") none
    [] [] [] ["10.0.0.7"] (some "internal") ["10.0.0.5"] ["10.0.0.6"] [] (by decide)

/-! ### C5 -/

/-- The seen-set recursion of the phase-2 masters loop, as a list
function: keep each element not yet recorded, threading the record. -/
def dedupFirstExcept : List String → List String → List String
  | [], _ => []
  | x :: xs, seen =>
    if x ∈ seen then dedupFirstExcept xs seen
    else x :: dedupFirstExcept xs (seen ++ [x])

theorem dedupFirstExcept_eq (xs : List String) : ∀ seen,
    dedupFirstExcept xs seen = dedupFirst (xs.filter (fun x => x ∉ seen)) := by
  induction xs with
  | nil => intro seen; simp [dedupFirstExcept, dedupFirst]
  | cons x xs ih =>
    intro seen
    by_cases hx : x ∈ seen
    · rw [dedupFirstExcept, if_pos hx, ih seen]
      have hf : (x :: xs).filter (fun y => y ∉ seen) = xs.filter (fun y => y ∉ seen) := by
        simp [List.filter_cons, hx]
      rw [hf]
    · rw [dedupFirstExcept, if_neg hx]
      have hf : (x :: xs).filter (fun y => y ∉ seen)
          = x :: xs.filter (fun y => y ∉ seen) := by
        simp [List.filter_cons, hx]
      rw [hf, dedupFirst, ih (seen ++ [x])]
      congr 1
      rw [List.filter_filter]
      apply congrArg
      apply List.filter_congr
      intro a _
      by_cases ha : a = x <;> by_cases hs : a ∈ seen <;>
        simp [ha, hs, List.mem_append]

theorem foldl_dedup_spec (f : String → String) (mk : String → Relationship)
    (xs : List String) : ∀ (seen : List String) (rels : List Relationship),
    (xs.foldl (fun (acc : List String × List Relationship) ip =>
        let src := f ip
        if src ∈ acc.1 then acc
        else (acc.1 ++ [src], acc.2 ++ [mk src])) (seen, rels)).2
      = rels ++ (dedupFirstExcept (xs.map f) seen).map mk := by
  induction xs with
  | nil => intro seen rels; simp [dedupFirstExcept]
  | cons x xs ih =>
    intro seen rels
    simp only [List.foldl_cons, List.map_cons]
    by_cases hx : f x ∈ seen
    · rw [if_pos hx, ih seen rels, dedupFirstExcept, if_pos hx]
    · rw [if_neg hx, ih (seen ++ [f x]) (rels ++ [mk (f x)]),
        dedupFirstExcept, if_neg hx]
      simp

/-- C5: slave-zone resolution order.  On a master_zones hit the single
authoritative edge master → slave is produced, independently of the zone's
masters list; with no hit, one edge is produced per distinct resolved
source of the masters list, first occurrences first. -/
theorem c5_slave_resolution (mz : List (String × String)) (names : List String)
    (its : List (String × String)) (sname : String) (zone : Zone)
    (h : zone.zone_type = "slave" ∨ zone.zone_type = "secondary") :
    (∀ m, dictGet mz zone.name = some m →
      masterSlaveRelsForZone mz names its sname zone
        = [⟨m, sname, "master_slave", zone.name, zone.view.getD ""⟩])
    ∧ (dictGet mz zone.name = none →
      masterSlaveRelsForZone mz names its sname zone
        = (dedupFirst (zone.masters.map (fun ip => resolve_ip ip names its))).map
            (fun src => ⟨src, sname, "master_slave", zone.name, zone.view.getD ""⟩)) := by
  constructor
  · intro m hm
    rw [masterSlaveRelsForZone, if_pos h, hm]
  · intro hm
    rw [masterSlaveRelsForZone, if_pos h, hm]
    rw [show (fun (acc : List String × List Relationship) ip =>
        let src := resolve_ip ip names its
        if src ∈ acc.1 then acc
        else (acc.1 ++ [src],
          acc.2 ++ [⟨src, sname, "master_slave", zone.name, zone.view.getD ""⟩]))
      = (fun (acc : List String × List Relationship) ip =>
        let src := resolve_ip ip names its
        if src ∈ acc.1 then acc
        else (acc.1 ++ [src],
          acc.2 ++ [(fun src =>
            (⟨src, sname, "master_slave", zone.name, zone.view.getD ""⟩ : Relationship))
              src])) from rfl]
    rw [foldl_dedup_spec (fun ip => resolve_ip ip names its)
      (fun src => ⟨src, sname, "master_slave", zone.name, zone.view.getD ""⟩)
      zone.masters [] []]
    rw [dedupFirstExcept_eq]
    simp

/-- Witness for C5: the zone-name hit case on the end-to-end scenario
data; the slave's unresolved masters IP is ignored. -/
theorem c5_slave_resolution_witness :
    masterSlaveRelsForZone [("example.com", "server1")] ["server1", "server2"] []
        "server2" zoneSlaveExample
      = [⟨"server1", "server2", "master_slave", "example.com", ""⟩] :=
  (c5_slave_resolution [("example.com", "server1")] ["server1", "server2"] []
    "server2" zoneSlaveExample (Or.inl rfl)).1 "server1" rfl

/-! ### C7 -/

theorem dedupFirst_nodup {α : Type} [DecidableEq α] (l : List α) :
    (dedupFirst l).Nodup := by
  induction l using dedupFirst.induct with
  | case1 => simp [dedupFirst]
  | case2 x xs ih =>
    rw [dedupFirst]
    refine List.nodup_cons.mpr ⟨?_, ih⟩
    intro hmem
    have h := (mem_dedupFirst _ _).mp hmem
    simp [List.mem_filter] at h

theorem dedupFirst_append_singleton {α : Type} [DecidableEq α] (l : List α) (x : α) :
    dedupFirst (l ++ [x])
      = if x ∈ l then dedupFirst l else dedupFirst l ++ [x] := by
  induction l using dedupFirst.induct with
  | case1 => simp [dedupFirst]
  | case2 y ys ih =>
    rw [List.cons_append, dedupFirst, List.filter_append]
    by_cases hxy : x = y
    · subst hxy
      have hfx : ([x].filter (fun z => z ≠ x)) = [] := by simp
      rw [hfx, List.append_nil]
      simp [dedupFirst, List.mem_cons]
    · have hfx : ([x].filter (fun z => z ≠ y)) = [x] := by simp [hxy]
      rw [hfx, ih]
      by_cases hmem : x ∈ ys
      · have h1 : x ∈ ys.filter (fun z => z ≠ y) := by
          simp [List.mem_filter, hmem, hxy]
        have h2 : x ∈ y :: ys := List.mem_cons_of_mem y hmem
        rw [if_pos h1, if_pos h2, dedupFirst]
      · have h1 : x ∉ ys.filter (fun z => z ≠ y) := by
          simp [List.mem_filter, hmem]
        have h2 : x ∉ y :: ys := by simp [List.mem_cons, hxy, hmem]
        rw [if_neg h1, if_neg h2, dedupFirst]
        simp

theorem filter_relKey_nil (rels : List Relationship) (k : String × String × String)
    (h : k ∉ rels.map relKey) : rels.filter (fun r => relKey r = k) = [] := by
  rw [List.filter_eq_nil_iff]
  intro r hr
  simp only [decide_eq_true_eq]
  intro hk
  exact h (hk ▸ List.mem_map_of_mem relKey hr)

theorem linkKey_eq_iff (l : LinkRec) (r : Relationship) :
    linkKey l = relKey r
      ↔ (l.source = r.source ∧ l.target = r.target ∧ l.rel_type = r.rel_type) := by
  simp [linkKey, relKey, Prod.ext_iff]

theorem linkKey_mkLink (rels : List Relationship) (k : String × String × String) :
    linkKey (mkLink rels k) = k := by
  simp [linkKey, mkLink]

theorem mkLink_append_ne (rs : List Relationship) (r : Relationship)
    (k : String × String × String) (h : ¬ relKey r = k) :
    mkLink (rs ++ [r]) k = mkLink rs k := by
  simp [mkLink, List.filter_append, List.filter_cons, h]

theorem mkLink_append_eq (rs : List Relationship) (r : Relationship)
    (k : String × String × String) (h : k = relKey r) :
    mkLink (rs ++ [r]) k
      = { mkLink rs k with
          zones := (mkLink rs k).zones ++ [r.zone_name]
          count := (mkLink rs k).count + 1 } := by
  simp [mkLink, List.filter_append, List.filter_cons, h.symm]

theorem addRel_not_mem (r : Relationship) : ∀ ls : List LinkRec,
    (∀ l ∈ ls, linkKey l ≠ relKey r) →
    addRel ls r = ls ++ [⟨r.source, r.target, r.rel_type, [r.zone_name], 1⟩] := by
  intro ls
  induction ls with
  | nil => intro _; rfl
  | cons l ls ih =>
    intro h
    rw [addRel, if_neg (fun hc =>
      h l (List.mem_cons_self l ls) ((linkKey_eq_iff l r).mpr hc)),
      ih (fun l' hl' => h l' (List.mem_cons_of_mem l hl')), List.cons_append]

theorem addRel_map_update (mkOld : (String × String × String) → LinkRec)
    (hmk : ∀ k, linkKey (mkOld k) = k) (r : Relationship) :
    ∀ keys : List (String × String × String), keys.Nodup → relKey r ∈ keys →
    addRel (keys.map mkOld) r
      = keys.map (fun k => if k = relKey r then
          { mkOld k with
            zones := (mkOld k).zones ++ [r.zone_name]
            count := (mkOld k).count + 1 }
        else mkOld k) := by
  intro keys
  induction keys with
  | nil => intro _ hmem; simp at hmem
  | cons k ks ih =>
    intro hnd hmem
    rw [List.map_cons, List.map_cons, addRel]
    by_cases hk : k = relKey r
    · have hcond : (mkOld k).source = r.source ∧ (mkOld k).target = r.target
          ∧ (mkOld k).rel_type = r.rel_type := by
        have h1 : linkKey (mkOld k) = relKey r := by rw [hmk k]; exact hk
        exact (linkKey_eq_iff _ _).mp h1
      rw [if_pos hcond, if_pos hk]
      congr 1
      have hnotin : relKey r ∉ ks := by
        rw [← hk]; exact (List.nodup_cons.mp hnd).1
      apply List.map_congr_left
      intro k' hk'
      rw [if_neg (fun he => hnotin (by rw [← he]; exact hk'))]
    · have hcond : ¬((mkOld k).source = r.source ∧ (mkOld k).target = r.target
          ∧ (mkOld k).rel_type = r.rel_type) := by
        intro hc
        exact hk (by rw [← hmk k]; exact (linkKey_eq_iff _ _).mpr hc)
      have hmem' : relKey r ∈ ks := by
        rcases List.mem_cons.mp hmem with he | hm
        · exact absurd he.symm hk
        · exact hm
      rw [if_neg hcond, ih (List.nodup_cons.mp hnd).2 hmem', if_neg hk]

theorem aggregate_eq_linksSpec (rels : List Relationship) :
    rels.foldl addRel [] = linksSpec rels := by
  induction rels using List.reverseRecOn with
  | nil => simp [linksSpec, dedupFirst]
  | append_singleton rs r ih =>
    rw [List.foldl_append, List.foldl_cons, List.foldl_nil, ih]
    rw [linksSpec, linksSpec, List.map_append, List.map_cons, List.map_nil,
      dedupFirst_append_singleton]
    by_cases hk : relKey r ∈ rs.map relKey
    · rw [if_pos hk]
      rw [addRel_map_update (mkLink rs) (linkKey_mkLink rs) r _
        (dedupFirst_nodup _) ((mem_dedupFirst _ _).mpr hk)]
      apply List.map_congr_left
      intro k hkmem
      by_cases hke : k = relKey r
      · rw [if_pos hke, mkLink_append_eq rs r k hke]
      · rw [if_neg hke, mkLink_append_ne rs r k (fun he => hke he.symm)]
    · rw [if_neg hk, List.map_append]
      rw [addRel_not_mem r _ (fun l hl => by
        rcases List.mem_map.mp hl with ⟨k, hkmem, hlk⟩
        rw [← hlk, linkKey_mkLink]
        exact fun he => hk (he ▸ (mem_dedupFirst _ _).mp hkmem))]
      congr 1
      · apply List.map_congr_left
        intro k hkmem
        have hke : ¬ relKey r = k :=
          fun he => hk (he ▸ (mem_dedupFirst _ _).mp hkmem)
        exact (mkLink_append_ne rs r k hke).symm
      · have hfil : (rs ++ [r]).filter (fun x => relKey x = relKey r) = [r] := by
          rw [List.filter_append, filter_relKey_nil rs _ hk]
          simp
        have hm : mkLink (rs ++ [r]) (relKey r)
            = ⟨r.source, r.target, r.rel_type, [r.zone_name], 1⟩ := by
          simp only [mkLink, hfil]
          rfl
        rw [List.map_cons, List.map_nil, hm]

/-- C7: link aggregation.  The links of build_graph are exactly one per
distinct (source, target, rel_type) key among the resolved relationships,
in first-occurrence order, each carrying the contributing zone names in
relationship order and a count equal to the group size (linksSpec is that
grouping, written from the specification's words). -/
theorem c7_link_aggregation (servers : List ServerConfig) :
    (build_graph servers).links = linksSpec (resolve_relationships servers) :=
  aggregate_eq_linksSpec (resolve_relationships servers)

/-! ### C10 -/

theorem endpoint_in_node_ids (servers : List ServerConfig) (e : String)
    (he : e ∈ (resolve_relationships servers).map (fun r => r.target)
        ++ (resolve_relationships servers).map (fun r => r.source)) :
    e ∈ (build_graph servers).nodes.map (fun n => n.id) := by
  have hnodes : (build_graph servers).nodes.map (fun n => n.id)
      = servers.map (fun s => s.name)
        ++ sortStrings (dedupSeen (viewServerIds servers) [])
        ++ sortStrings (dedupSeen
            (((resolve_relationships servers).map (fun r => r.target)
              ++ (resolve_relationships servers).map (fun r => r.source)).filter
              (fun x => x ∉ servers.map (fun s => s.name)
                ∧ x ∉ viewServerIds servers)) []) := by
    simp [build_graph, List.map_append, List.map_map, Function.comp_def]
  rw [hnodes]
  by_cases h1 : e ∈ servers.map (fun s => s.name)
  · exact List.mem_append.mpr (Or.inl (List.mem_append.mpr (Or.inl h1)))
  · by_cases h2 : e ∈ viewServerIds servers
    · refine List.mem_append.mpr (Or.inl (List.mem_append.mpr (Or.inr ?_)))
      rw [mem_sortStrings, mem_dedupSeen]
      simp [h2]
    · refine List.mem_append.mpr (Or.inr ?_)
      rw [mem_sortStrings, mem_dedupSeen]
      refine ⟨List.mem_filter.mpr ⟨he, ?_⟩, by simp⟩
      simp [h1, h2]

/-- C10: graph closure invariant.  Every link endpoint produced by
build_graph is the id of some node: a server node, a synthesized view-peer
node, or a synthesized external node. -/
theorem c10_links_closed (servers : List ServerConfig) (l : LinkRec)
    (h : l ∈ (build_graph servers).links) :
    l.source ∈ (build_graph servers).nodes.map (fun n => n.id)
      ∧ l.target ∈ (build_graph servers).nodes.map (fun n => n.id) := by
  have hl : (build_graph servers).links = linksSpec (resolve_relationships servers) :=
    aggregate_eq_linksSpec _
  rw [hl, linksSpec] at h
  rcases List.mem_map.mp h with ⟨k, hk, hlk⟩
  rcases List.mem_map.mp ((mem_dedupFirst _ _).mp hk) with ⟨r, hr, hrk⟩
  constructor
  · have hsrc : l.source = r.source := by rw [← hlk, ← hrk]; rfl
    rw [hsrc]
    refine endpoint_in_node_ids servers r.source (List.mem_append.mpr (Or.inr ?_))
    exact List.mem_map_of_mem _ hr
  · have htgt : l.target = r.target := by rw [← hlk, ← hrk]; rfl
    rw [htgt]
    refine endpoint_in_node_ids servers r.target (List.mem_append.mpr (Or.inl ?_))
    exact List.mem_map_of_mem _ hr

/-- Witness for C10 at the end-to-end scenario servers. -/
theorem c10_links_closed_witness :
    (⟨"server1", "server2", "also_notify", ["example.com"], 1⟩ : LinkRec).source
        ∈ (build_graph [server1Example, server2Example]).nodes.map (fun n => n.id)
      ∧ (⟨"server1", "server2", "also_notify", ["example.com"], 1⟩ : LinkRec).target
        ∈ (build_graph [server1Example, server2Example]).nodes.map (fun n => n.id) :=
  c10_links_closed [server1Example, server2Example] _ (by decide)

/-! ### C3 -/

theorem foldl_seen_mono
    (g : (String × List String × List LogEntry) → Chunk → (String × List String × List LogEntry))
    (hg : ∀ acc c x, x ∈ acc.2.1 → x ∈ (g acc c).2.1) :
    ∀ (chunks : List Chunk) (acc : String × List String × List LogEntry) (x : String),
      x ∈ acc.2.1 → x ∈ (chunks.foldl g acc).2.1 := by
  intro chunks
  induction chunks with
  | nil => intro acc x hx; simpa using hx
  | cons c rest ih =>
    intro acc x hx
    rw [List.foldl_cons]
    exact ih (g acc c) x (hg acc c x hx)

/-- The seen set of _resolve_includes only ever grows: a canonical path
recorded at any point of the expansion stays recorded for the remainder of
the whole traversal (it is never removed when a file's expansion
finishes). -/
theorem resolve_includes_seen_mono :
    ∀ (fuel : Nat) (fs : FS) (root fp : String) (seen : List String) (x : String),
      x ∈ seen → x ∈ (resolve_includes fuel fs root fp seen).2.1 := by
  intro fuel
  induction fuel with
  | zero =>
    intro fs root fp seen x hx
    simpa [resolve_includes] using hx
  | succ f ih =>
    intro fs root fp seen x hx
    rw [resolve_includes]
    by_cases hm : fs.realpath fp ∈ seen
    · simpa [hm] using hx
    · rw [if_neg hm]
      refine foldl_seen_mono _ ?_ _ _ x (List.mem_append.mpr (Or.inl hx))
      intro acc c y hy
      cases c with
      | lit s => exact hy
      | inc orig =>
        cases hp : resolveIncludePath fs (fs.dirname (fs.realpath fp))
            root orig with
        | some q =>
          simp only [hp]
          exact ih fs root q acc.2.1 y hy
        | none =>
          simp only [hp]
          exact hy

theorem string_append_left_cancel (p a b : String) (h : p ++ a = p ++ b) : a = b := by
  have h1 := congrArg String.data h
  rw [String.data_append, String.data_append] at h1
  have h2 := List.append_cancel_left h1
  cases a; cases b
  simp only at h2
  rw [h2]

theorem notFound_ne_circular (a b : String) :
    "Include file not found: " ++ a ≠ "Circular include skipped: " ++ b := by
  intro h
  have h1 := congrArg String.data h
  rw [String.data_append, String.data_append] at h1
  have hI : "Include file not found: ".data = 'I' :: "nclude file not found: ".data := rfl
  have hC : "Circular include skipped: ".data = 'C' :: "ircular include skipped: ".data := rfl
  rw [hI, hC, List.cons_append, List.cons_append] at h1
  injection h1 with h2 h3
  exact absurd h2 (by decide)

theorem foldl_circular_visited
    (g : (String × List String × List LogEntry) → Chunk → (String × List String × List LogEntry))
    (s target : String)
    (hmono : ∀ acc c x, x ∈ acc.2.1 → x ∈ (g acc c).2.1)
    (hstep : ∀ acc c,
      (⟨"warn", "Circular include skipped: " ++ s⟩ : LogEntry) ∈ (g acc c).2.2 →
      (⟨"warn", "Circular include skipped: " ++ s⟩ : LogEntry) ∈ acc.2.2
        ∨ target ∈ (g acc c).2.1) :
    ∀ (chunks : List Chunk) (acc : String × List String × List LogEntry),
      (⟨"warn", "Circular include skipped: " ++ s⟩ : LogEntry)
          ∈ (chunks.foldl g acc).2.2 →
      (⟨"warn", "Circular include skipped: " ++ s⟩ : LogEntry) ∈ acc.2.2
        ∨ target ∈ (chunks.foldl g acc).2.1 := by
  intro chunks
  induction chunks with
  | nil => intro acc h; exact Or.inl (by simpa using h)
  | cons c rest ih =>
    intro acc h
    rw [List.foldl_cons] at h ⊢
    rcases ih (g acc c) h with h1 | h2
    · rcases hstep acc c h1 with h3 | h4
      · exact Or.inl h3
      · exact Or.inr (foldl_seen_mono g hmono rest (g acc c) target h4)
    · exact Or.inr h2

/-- A file whose canonical real path is already in the visited set
short-circuits at entry: empty substituted content, an unchanged set, and
exactly one circular diagnostic naming that file — the if-direction of the
visited-set characterization. -/
theorem circular_on_visited_entry (fuel : Nat) (fs : FS) (root fp : String)
    (seen : List String) (h : fs.realpath fp ∈ seen) :
    resolve_includes (fuel + 1) fs root fp seen
      = ("", seen, [⟨"warn", "Circular include skipped: " ++ fp⟩]) := by
  rw [resolve_includes, if_pos h]

/-- Every Circular include skipped diagnostic the resolver ever emits
names a file whose canonical real path belongs to the visited set the
expansion returns — the warning can only fire for a file that was entered
(or pre-seeded) at some earlier point of the whole traversal, which is the
only-if direction of the visited-set characterization. -/
theorem circular_warning_only_for_visited :
    ∀ (fuel : Nat) (fs : FS) (root fp : String) (seen : List String) (s : String),
      (⟨"warn", "Circular include skipped: " ++ s⟩ : LogEntry)
          ∈ (resolve_includes fuel fs root fp seen).2.2 →
      fs.realpath s ∈ (resolve_includes fuel fs root fp seen).2.1 := by
  intro fuel
  induction fuel with
  | zero =>
    intro fs root fp seen s h
    simp [resolve_includes] at h
  | succ f ih =>
    intro fs root fp seen s h
    rw [resolve_includes] at h ⊢
    by_cases hv : fs.realpath fp ∈ seen
    · rw [if_pos hv] at h ⊢
      have h1 : (⟨"warn", "Circular include skipped: " ++ s⟩ : LogEntry)
          = ⟨"warn", "Circular include skipped: " ++ fp⟩ := by
        simpa using h
      injection h1 with hl hm
      rw [string_append_left_cancel _ _ _ hm]
      exact hv
    · rw [if_neg hv] at h ⊢
      rcases foldl_circular_visited _ s (fs.realpath s)
          (fun acc c y hy => by
            cases c with
            | lit t => exact hy
            | inc orig =>
              cases hp : resolveIncludePath fs (fs.dirname (fs.realpath fp))
                  root orig with
              | some q =>
                simp only [hp]
                exact resolve_includes_seen_mono f fs root q acc.2.1 y hy
              | none =>
                simp only [hp]
                exact hy)
          (fun acc c hc => by
            cases c with
            | lit t => exact Or.inl hc
            | inc orig =>
              cases hp : resolveIncludePath fs (fs.dirname (fs.realpath fp))
                  root orig with
              | some q =>
                simp only [hp] at hc ⊢
                rcases List.mem_append.mp hc with h1 | h1
                · exact Or.inl h1
                · rcases List.mem_cons.mp h1 with h2 | h2
                  · exact absurd h2 (by simp)
                  · exact Or.inr (ih fs root q acc.2.1 s h2)
              | none =>
                simp only [hp] at hc ⊢
                rcases List.mem_append.mp hc with h1 | h1
                · exact Or.inl h1
                · have h2 := List.mem_singleton.mp h1
                  injection h2 with hl hm
                  exact absurd hm.symm (notFound_ne_circular orig s))
          (fs.content fp) ("", seen ++ [fs.realpath fp], []) h with h1 | h2
      · simp at h1
      · exact h2

/-- A diamond include tree with no cycle: file a includes file b at two
distinct include sites; b includes nothing. -/
def fsDiamond : FS where
  pathExists := fun _ => true
  isFile := fun p => p == "a" || p == "b"
  isDir := fun _ => false
  listDir := fun _ => []
  stem := fun _ => ""
  entryName := fun _ => ""
  suffix := fun _ => ""
  realpath := fun p => p
  dirname := fun _ => ""
  basename := fun p => p
  isAbs := fun _ => true
  joinPath := fun a b => a ++ "/" ++ b
  parts := fun _ => []
  content := fun p =>
    if p == "a" then [.inc "b", .lit "X", .inc "b"]
    else if p == "b" then [.lit "Z"] else []
  findRecursive := fun _ _ => none

/-- A self-including file: c includes itself after some literal text. -/
def fsCycle : FS where
  pathExists := fun _ => true
  isFile := fun p => p == "c"
  isDir := fun _ => false
  listDir := fun _ => []
  stem := fun _ => ""
  entryName := fun _ => ""
  suffix := fun _ => ""
  realpath := fun p => p
  dirname := fun _ => ""
  basename := fun p => p
  isAbs := fun _ => true
  joinPath := fun a b => a ++ "/" ++ b
  parts := fun _ => []
  content := fun p => if p == "c" then [.lit "P", .inc "c"] else []
  findRecursive := fun _ _ => none

/-- Counterexample to C3: in the diamond tree, file b is on no expansion
chain at the second include site (its first expansion has completed), yet
the resolver substitutes empty content there and emits a Circular include
skipped diagnostic, so a file included from two different include sites
with no cycle is not fully inlined at both sites. -/
theorem c3_counterexample :
    resolve_includes 10 fsDiamond "" "a" []
      = ("ZX", ["a", "b"],
        [⟨"info", "Resolved include: b"⟩,
         ⟨"info", "Resolved include: b"⟩,
         ⟨"warn", "Circular include skipped: b"⟩]) := rfl

/-- C3 amended: the circular-include warning fires exactly when the
included file's canonical real path is already in the visited set, which
accumulates every file ever entered during the whole expansion and is
never pruned when a file completes — visited-set, not
currently-expanding-chain, semantics.  In order: (1) the visited set only
grows, a recorded path is never removed; (2) if-direction, entering an
already-visited file short-circuits to empty content, an unchanged set and
exactly the one circular diagnostic; (3) only-if direction, every circular
diagnostic emitted anywhere in an expansion names a file whose canonical
path is in the visited set the expansion returns; (4) hence a file reached
from two include sites with no cycle is inlined at the first site and
replaced by empty content with one circular diagnostic at the second; and
(5) a genuinely cyclic tree still resolves to completion with exactly one
circular diagnostic and the surrounding text intact. -/
theorem c3_visited_set_semantics :
    (∀ (fuel : Nat) (fs : FS) (root fp : String) (seen : List String) (x : String),
      x ∈ seen → x ∈ (resolve_includes fuel fs root fp seen).2.1)
    ∧ (∀ (fuel : Nat) (fs : FS) (root fp : String) (seen : List String),
      fs.realpath fp ∈ seen →
      resolve_includes (fuel + 1) fs root fp seen
        = ("", seen, [⟨"warn", "Circular include skipped: " ++ fp⟩]))
    ∧ (∀ (fuel : Nat) (fs : FS) (root fp : String) (seen : List String) (s : String),
      (⟨"warn", "Circular include skipped: " ++ s⟩ : LogEntry)
          ∈ (resolve_includes fuel fs root fp seen).2.2 →
      fs.realpath s ∈ (resolve_includes fuel fs root fp seen).2.1)
    ∧ resolve_includes 10 fsDiamond "" "a" []
      = ("ZX", ["a", "b"],
        [⟨"info", "Resolved include: b"⟩,
         ⟨"info", "Resolved include: b"⟩,
         ⟨"warn", "Circular include skipped: b"⟩])
    ∧ resolve_includes 10 fsCycle "" "c" []
      = ("P", ["c"],
        [⟨"info", "Resolved include: c"⟩,
         ⟨"warn", "Circular include skipped: c"⟩]) :=
  ⟨resolve_includes_seen_mono, circular_on_visited_entry,
    circular_warning_only_for_visited, rfl, rfl⟩

/-- Witness for C3 amended: entering the already-visited file c with c
pre-seeded yields empty content, the unchanged set and exactly the one
circular diagnostic. -/
theorem c3_visited_set_semantics_witness :
    resolve_includes 6 fsCycle "" "c" ["c"]
      = ("", ["c"], [⟨"warn", "Circular include skipped: c"⟩]) :=
  c3_visited_set_semantics.2.1 5 fsCycle "" "c" ["c"] (by decide)

/-! ### C1 -/

/-- A config tree with two discovered servers s1 and s2; the files carry
literal text T1 and T2. -/
def fsTwoServers : FS where
  pathExists := fun p => p == "/c"
  isFile := fun p => p == "/c/s1/named.conf" || p == "/c/s2/named.conf"
  isDir := fun p => p == "/c/s1" || p == "/c/s2"
  listDir := fun p => if p == "/c" then ["/c/s1", "/c/s2"] else []
  stem := fun _ => ""
  entryName := fun p => if p == "/c/s1" then "s1" else if p == "/c/s2" then "s2" else ""
  suffix := fun _ => ""
  realpath := fun p => p
  dirname := fun _ => "/c"
  basename := fun p => p
  isAbs := fun _ => true
  joinPath := fun a b => a ++ "/" ++ b
  parts := fun _ => []
  content := fun p =>
    if p == "/c/s1/named.conf" then [.lit "T1"]
    else if p == "/c/s2/named.conf" then [.lit "T2"] else []
  findRecursive := fun _ _ => none

/-- A grammar oracle that raises a fatal ParseException on server s1's
text and parses s2's text fine. -/
def parseFailFirst : ParseFn := fun t =>
  if t = "T1" then .error "boom" else .ok ([], [])

/-- A grammar oracle that parses s1's text fine and raises a fatal
ParseException on server s2's text. -/
def parseFailSecond : ParseFn := fun t =>
  if t = "T2" then .error "boom2" else .ok ([], [])

/-- Counterexample to C1: discovery finds two servers, parsing the first
raises a fatal error, and extract_all returns that error — no servers at
all are extracted and the second discovered server is never processed, so
one broken server does abort the whole run. -/
theorem c1_counterexample :
    discover_configs fsTwoServers "/c"
        = .ok [("s1", "/c/s1/named.conf"), ("s2", "/c/s2/named.conf")]
      ∧ extract_all fsTwoServers parseFailFirst 5 "/c"
        = .error (.parseError "boom") :=
  ⟨rfl, rfl⟩

theorem extractAllGo_error (fs : FS) (parse : ParseFn) (fuel : Nat) :
    ∀ (pre : List (String × String)) (nm fp : String)
      (rest : List (String × String)) (e : PipeError)
      (servers : List ServerConfig) (logs : List LogEntry),
    (∀ q ∈ pre, ∃ out, load_and_parse fs parse fuel q.2 = .ok out) →
    load_and_parse fs parse fuel fp = .error e →
    extractAllGo fs parse fuel (pre ++ (nm, fp) :: rest) servers logs = .error e := by
  intro pre
  induction pre with
  | nil =>
    intro nm fp rest e servers logs _ hfail
    rw [List.nil_append, extractAllGo, hfail]
  | cons q pre ih =>
    intro nm fp rest e servers logs hpre hfail
    obtain ⟨qn, qp⟩ := q
    obtain ⟨out, hq⟩ := hpre (qn, qp) (List.mem_cons_self _ _)
    obtain ⟨res, lgs⟩ := out
    rw [List.cons_append, extractAllGo, hq]
    exact ih nm fp rest e _ _
      (fun q' hq' => hpre q' (List.mem_cons_of_mem _ hq')) hfail

/-- C1 amended: extract_all performs no per-server error isolation.  When
discovery succeeds and some discovered server's file raises a fatal parse
error while every earlier server parses, extract_all returns that error:
the run aborts, no servers are returned, and the servers after the broken
one are never processed (the resolver and graph builder are reached only
when every discovered server parses). -/
theorem c1_fatal_error_aborts_run (fs : FS) (parse : ParseFn) (fuel : Nat)
    (path : String) (pre : List (String × String)) (nm fp : String)
    (rest : List (String × String)) (e : PipeError)
    (hd : discover_configs fs path = .ok (pre ++ (nm, fp) :: rest))
    (hpre : ∀ q ∈ pre, ∃ out, load_and_parse fs parse fuel q.2 = .ok out)
    (hfail : load_and_parse fs parse fuel fp = .error e) :
    extract_all fs parse fuel path = .error e := by
  rw [extract_all, hd]
  exact extractAllGo_error fs parse fuel pre nm fp rest e [] [] hpre hfail

/-- Witness for C1 amended: the first server parses, the second raises,
the whole run aborts with the second server's error. -/
theorem c1_fatal_error_aborts_run_witness :
    extract_all fsTwoServers parseFailSecond 5 "/c" = .error (.parseError "boom2") :=
  c1_fatal_error_aborts_run fsTwoServers parseFailSecond 5 "/c"
    [("s1", "/c/s1/named.conf")] "s2" "/c/s2/named.conf" [] (.parseError "boom2")
    rfl
    (fun q hq => by
      have hq1 : q = ("s1", "/c/s1/named.conf") := by simpa using hq
      rw [hq1]
      exact ⟨_, rfl⟩)
    rfl

/-! ### C2 -/

/-- A single config whose text is one unknown-keyword statement followed
by an unresolvable include directive. -/
def fsUnknownStmt : FS where
  pathExists := fun p => p == "main.conf"
  isFile := fun p => p == "main.conf"
  isDir := fun _ => false
  listDir := fun _ => []
  stem := fun _ => "main"
  entryName := fun _ => ""
  suffix := fun _ => ".conf"
  realpath := fun p => p
  dirname := fun _ => ""
  basename := fun p => p
  isAbs := fun _ => true
  joinPath := fun a b => a ++ "/" ++ b
  parts := fun _ => []
  content := fun p =>
    if p == "main.conf" then [.lit "logging x; ", .inc "zzz"] else []
  findRecursive := fun _ _ => none

/-- The grammar outcome on that file's inlined text: the unknown top-level
statement is skipped and its keyword logging is collected in the module
global, as grammar.py's unknown-statement parse action does. -/
def parseUnknownStmt : ParseFn := fun t =>
  if t = "logging x; " then .ok ([], ["logging"]) else .error "parse error"

/-- C2 evaluated at the failing input: the grammar skips the unknown
statement and collects its keyword (which get_unknown_warnings would
surface), but the diagnostics load_and_parse returns for the file are
exactly the include-resolution entries — no entry of the form
Irrelevant statement skipped: logging is ever produced, because no
pipeline code calls get_unknown_warnings or formats that message. -/
theorem c2_unknown_warning_never_surfaced :
    load_and_parse fsUnknownStmt parseUnknownStmt 5 "main.conf"
        = .ok ([], [⟨"warn", "Include file not found: zzz"⟩])
      ∧ parseUnknownStmt "logging x; " = .ok ([], ["logging"])
      ∧ (get_unknown_warnings ["logging"]).1 = ["logging"] :=
  ⟨rfl, rfl, rfl⟩

end Namedviz
